import Mathlib

/-!
Verification development for the aiptx phase-sequenced scanning pipeline.

The repository under verification ships only its test suite, a driver
script and the CLI wrapper; the implementation modules
(aipt_v2.execution.result_collector, aipt_v2.execution.phase_runner,
aipt_v2.execution.terminal, aipt_v2.intelligence.scope,
aipt_v2.scanners.base) are not part of the sources.  Every definition
below is therefore a shallow embedding modelled from the specification
document, faithful to its words, with the field names and enum values
pinned by the in-repo tests where those name them.
-/

namespace Aiptx

/-- Modelled from the spec: ordered severity enum INFO < LOW < MEDIUM <
HIGH < CRITICAL of aipt_v2.scanners.base.ScanSeverity (module missing
from the sources; values pinned by tests/test_pipeline_e2e.py). -/
inductive ScanSeverity where
  | info
  | low
  | medium
  | high
  | critical
deriving DecidableEq, Repr

/-- Rank realising the severity order INFO < LOW < MEDIUM < HIGH < CRITICAL. -/
def ScanSeverity.rank : ScanSeverity → Nat
  | .info => 0
  | .low => 1
  | .medium => 2
  | .high => 3
  | .critical => 4

/-- Modelled from the spec: phase enum RECON, SCAN, EXPLOIT, POST_EXPLOIT
of aipt_v2.execution.tool_registry.ToolPhase (module missing from the
sources). -/
inductive ToolPhase where
  | recon
  | scan
  | exploit
  | postExploit
deriving DecidableEq, Repr

/-- Declaration-order index of a phase, used to order findings across phases. -/
def ToolPhase.idx : ToolPhase → Nat
  | .recon => 0
  | .scan => 1
  | .exploit => 2
  | .postExploit => 3

/-- Modelled from the spec: the Finding record of section 3 (one
observation from one tool); realises aipt_v2.scanners.base.ScanFinding,
which is missing from the sources.  The raw_payload map is opaque to
every claim and is omitted. -/
structure ScanFinding where
  title : String
  severity : ScanSeverity
  description : String
  host : String
  port : Option Nat := none
  url : Option String := none
  source_tool : String
  tags : List String := []
  external_ref : Option String := none
deriving DecidableEq, Repr

/-- ASCII whitespace test used by the fingerprint normalisation. -/
def isSpaceChar (c : Char) : Bool :=
  c == ' ' || c == '\t' || c == '\n' || c == '\r'

/-- Case and whitespace normalisation applied to every fingerprint token:
surrounding whitespace is trimmed and letters are lowered. -/
def normToken (s : String) : String :=
  String.mk
    ((((s.data.dropWhile isSpaceChar).reverse.dropWhile isSpaceChar).reverse).map Char.toLower)

/-- Modelled from the spec: the stable dedup key derived from
host + port/url + title + source_tool, case/whitespace-normalized
(section 3, NormalizedFinding).  The hash is modelled as the normalised
key tuple itself, rendered as a string. -/
def fingerprint (f : ScanFinding) : String :=
  let loc :=
    match f.url with
    | some u => normToken u
    | none =>
      match f.port with
      | some p => toString p
      | none => ""
  normToken f.host ++ "|" ++ loc ++ "|" ++ normToken f.title ++ "|" ++ normToken f.source_tool

/-- Modelled from the spec: a Finding plus the phase that produced it, its
derived fingerprint and the occurrence counter updated on duplicate
ingestion (section 3, NormalizedFinding; owned by the Evidence Collector). -/
structure NormalizedFinding where
  finding : ScanFinding
  phase : ToolPhase
  fingerprint : String
  occurrences : Nat
deriving DecidableEq, Repr

/-- Modelled from the spec: the Evidence Collector state, the
insertion-ordered store of normalized findings keyed by fingerprint
(realises aipt_v2.execution.result_collector.ResultCollector, missing
from the sources). -/
structure ResultCollector where
  entries : List NormalizedFinding
deriving DecidableEq, Repr

/-- Collector with no ingested findings. -/
def emptyCollector : ResultCollector := ⟨[]⟩

/-- Modelled from the spec: add_finding computes the fingerprint, inserts
a fresh NormalizedFinding with occurrence count 1 if the fingerprint is
unseen, and otherwise only increments the occurrence count of the
existing entry (section 4.4). -/
def add_finding (c : ResultCollector) (f : ScanFinding) (p : ToolPhase) : ResultCollector :=
  if c.entries.any (fun e => e.fingerprint == fingerprint f) then
    ⟨c.entries.map (fun e =>
      if e.fingerprint == fingerprint f then
        { e with occurrences := e.occurrences + 1 }
      else e)⟩
  else
    ⟨c.entries ++ [⟨f, p, fingerprint f, 1⟩]⟩

/-- Modelled from the spec: get_normalized_findings returns the
normalized findings in insertion order (section 4.4). -/
def get_normalized_findings (c : ResultCollector) : List NormalizedFinding :=
  c.entries

/-- Iterated ingestion of the same physical finding. -/
def add_times (f : ScanFinding) (p : ToolPhase) : Nat → ResultCollector → ResultCollector
  | 0, c => c
  | n + 1, c => add_finding (add_times f p n c) f p

lemma bump_skips_other_fingerprints (l : List NormalizedFinding) (k : String)
    (h : ∀ e ∈ l, e.fingerprint ≠ k) :
    l.map (fun e =>
      if e.fingerprint == k then { e with occurrences := e.occurrences + 1 } else e) = l := by
  induction l with
  | nil => rfl
  | cons a t ih =>
    have ha : a.fingerprint ≠ k := h a (by simp)
    have ht : ∀ e ∈ t, e.fingerprint ≠ k := fun e he => h e (by simp [he])
    rw [List.map_cons, if_neg (by simp [ha]), ih ht]

lemma add_finding_fresh (c : ResultCollector) (f : ScanFinding) (p : ToolPhase)
    (h : ∀ e ∈ c.entries, e.fingerprint ≠ fingerprint f) :
    (add_finding c f p).entries = c.entries ++ [⟨f, p, fingerprint f, 1⟩] := by
  unfold add_finding
  have hany : c.entries.any (fun e => e.fingerprint == fingerprint f) = false := by
    simp only [List.any_eq_false, beq_iff_eq]
    exact h
  simp [hany]

lemma add_times_fresh (c : ResultCollector) (f : ScanFinding) (p : ToolPhase)
    (h : ∀ e ∈ c.entries, e.fingerprint ≠ fingerprint f) :
    ∀ n, 1 ≤ n →
      (add_times f p n c).entries = c.entries ++ [⟨f, p, fingerprint f, n⟩] := by
  intro n hn
  induction n with
  | zero => omega
  | succ m ih =>
    rcases Nat.eq_or_lt_of_le hn with h1 | h1
    · -- m + 1 = 1, a single ingestion of a fresh finding appends it
      have hm : m = 0 := by omega
      subst hm
      simpa [add_times] using add_finding_fresh c f p h
    · have hm : 1 ≤ m := by omega
      have hprev := ih hm
      show (add_finding (add_times f p m c) f p).entries = _
      unfold add_finding
      have hmem : (⟨f, p, fingerprint f, m⟩ : NormalizedFinding) ∈ (add_times f p m c).entries := by
        rw [hprev]; simp
      have hany : (add_times f p m c).entries.any
          (fun e => e.fingerprint == fingerprint f) = true := by
        rw [List.any_eq_true]
        exact ⟨⟨f, p, fingerprint f, m⟩, hmem, by simp⟩
      rw [if_pos hany, hprev]
      simp only [List.map_append, List.map_cons, List.map_nil]
      congr 1
      · exact bump_skips_other_fingerprints c.entries (fingerprint f) h
      · simp

/-- C1: ingesting the same physical finding N times (N at least 1) into a
collector that has not seen its fingerprint yields exactly one
NormalizedFinding for that fingerprint, carrying occurrence count N; the
second and later ingestions change only the occurrence counter, so the
sequence of distinct normalized findings returned by
get_normalized_findings is the one obtained after the first ingestion. -/
theorem add_finding_idempotent_dedup
    (c : ResultCollector) (f : ScanFinding) (p : ToolPhase) (n : Nat)
    (hn : 1 ≤ n)
    (hfresh : ∀ e ∈ c.entries, e.fingerprint ≠ fingerprint f) :
    ((get_normalized_findings (add_times f p n c)).filter
        (fun e => e.fingerprint == fingerprint f)).length = 1 ∧
    (∀ e ∈ get_normalized_findings (add_times f p n c),
        e.fingerprint = fingerprint f → e.occurrences = n) ∧
    (get_normalized_findings (add_times f p n c)).map (fun e => e.finding) =
      (get_normalized_findings (add_finding c f p)).map (fun e => e.finding) ∧
    (get_normalized_findings (add_times f p n c)).map (fun e => e.fingerprint) =
      (get_normalized_findings (add_finding c f p)).map (fun e => e.fingerprint) := by
  have hmain := add_times_fresh c f p hfresh n hn
  have hone := add_finding_fresh c f p hfresh
  have hskip : (c.entries.filter (fun e => e.fingerprint == fingerprint f)) = [] := by
    rw [List.filter_eq_nil_iff]
    intro e he
    simpa using hfresh e he
  refine ⟨?_, ?_, ?_, ?_⟩
  · simp [get_normalized_findings, hmain, List.filter_append, hskip]
  · intro e he hfp
    rw [get_normalized_findings, hmain, List.mem_append] at he
    rcases he with he | he
    · exact absurd hfp (hfresh e he)
    · simp only [List.mem_singleton] at he
      subst he
      rfl
  · simp [get_normalized_findings, hmain, hone]
  · simp [get_normalized_findings, hmain, hone]

/-- Modelled from the spec: the configurable severity floor below which a
finding is excluded from attack-path candidacy; the default floor admits
LOW and above, so INFO-only finding sets never produce a path
(section 4.4). -/
def severityFloor : ScanSeverity := ScanSeverity.low

/-- A finding qualifies as an attack-path candidate when its severity is
at or above the configured floor. -/
def candidateOk (e : NormalizedFinding) : Bool :=
  decide (severityFloor.rank ≤ e.finding.severity.rank)

/-- Modelled from the spec: the predefined escalatable tag set the earlier
finding must overlap (section 4.4 names injection and auth-bypass as
examples; the sqli tag is pinned by the in-repo tests). -/
def escalatableTags : List String :=
  ["sqli", "injection", "xss", "auth-bypass", "ssrf", "lfi", "idor"]

/-- Modelled from the spec: the tag set indicating successful exploitation
or data exposure on the later finding (section 4.4; the exploitation and
data-breach tags are pinned by the in-repo tests). -/
def exploitIndicatorTags : List String :=
  ["exploitation", "exploited", "data-breach", "data-exposure"]

/-- Two findings refer to the same target when they share a host and,
whenever both carry a url (respectively a port), those agree
(section 4.4). -/
def sharesTarget (a b : NormalizedFinding) : Bool :=
  (a.finding.host == b.finding.host) &&
  (match a.finding.url, b.finding.url with
   | some u, some v => u == v
   | _, _ => true) &&
  (match a.finding.port, b.finding.port with
   | some u, some v => u == v
   | _, _ => true)

/-- Modelled from the spec: the link predicate of detect_attack_paths — an
earlier-phase finding is linked to a later-phase finding when both pass
the severity floor, they share a target, the earlier tags overlap the
escalatable set and the later tags indicate exploitation or data exposure
(section 4.4). -/
def linkedB (a b : NormalizedFinding) : Bool :=
  decide (a.phase.idx < b.phase.idx) &&
  candidateOk a && candidateOk b &&
  sharesTarget a b &&
  decide (∃ t ∈ a.finding.tags, t ∈ escalatableTags) &&
  decide (∃ t ∈ b.finding.tags, t ∈ exploitIndicatorTags)

/-- Modelled from the spec: an AttackPath is an ordered sequence of
normalized-finding references by fingerprint (section 3). -/
structure AttackPath where
  steps : List String
deriving DecidableEq, Repr

/-- The two-step path linking an earlier finding to a later one. -/
def mkPath (a b : NormalizedFinding) : AttackPath :=
  ⟨[a.fingerprint, b.fingerprint]⟩

/-- Modelled from the spec: detect_attack_paths recomputes, on demand from
the current collector state, every link between an earlier-phase and a
later-phase finding satisfying the link predicate (sections 3 and 4.4). -/
def detect_attack_paths (c : ResultCollector) : List AttackPath :=
  c.entries.flatMap (fun a =>
    (c.entries.filter (fun b => linkedB a b)).map (fun b => mkPath a b))

/-- Propositional form of the link predicate, used to state the
characterisation of detect_attack_paths. -/
def LinkedP (a b : NormalizedFinding) : Prop :=
  a.phase.idx < b.phase.idx ∧
  severityFloor.rank ≤ a.finding.severity.rank ∧
  severityFloor.rank ≤ b.finding.severity.rank ∧
  a.finding.host = b.finding.host ∧
  (∀ u v, a.finding.url = some u → b.finding.url = some v → u = v) ∧
  (∀ u v, a.finding.port = some u → b.finding.port = some v → u = v) ∧
  (∃ t ∈ a.finding.tags, t ∈ escalatableTags) ∧
  (∃ t ∈ b.finding.tags, t ∈ exploitIndicatorTags)

lemma sharesTarget_eq_true_iff (a b : NormalizedFinding) :
    sharesTarget a b = true ↔
      a.finding.host = b.finding.host ∧
      (∀ u v, a.finding.url = some u → b.finding.url = some v → u = v) ∧
      (∀ u v, a.finding.port = some u → b.finding.port = some v → u = v) := by
  unfold sharesTarget
  rw [Bool.and_eq_true, Bool.and_eq_true]
  constructor
  · rintro ⟨⟨hh, hu⟩, hp⟩
    refine ⟨by simpa using hh, ?_, ?_⟩
    · intro u v hau hbv
      rw [hau, hbv] at hu
      simpa using hu
    · intro u v hau hbv
      rw [hau, hbv] at hp
      simpa using hp
  · rintro ⟨hh, hu, hp⟩
    refine ⟨⟨by simpa using hh, ?_⟩, ?_⟩
    · cases hau : a.finding.url with
      | none => simp
      | some u =>
        cases hbv : b.finding.url with
        | none => simp
        | some v => simpa using hu u v hau hbv
    · cases hau : a.finding.port with
      | none => simp
      | some u =>
        cases hbv : b.finding.port with
        | none => simp
        | some v => simpa using hp u v hau hbv

lemma linkedB_eq_true_iff (a b : NormalizedFinding) :
    linkedB a b = true ↔ LinkedP a b := by
  unfold linkedB LinkedP candidateOk
  rw [Bool.and_eq_true, Bool.and_eq_true, Bool.and_eq_true, Bool.and_eq_true,
    Bool.and_eq_true, sharesTarget_eq_true_iff]
  simp only [decide_eq_true_eq]
  constructor
  · rintro ⟨⟨⟨⟨⟨h1, h2⟩, h3⟩, h4⟩, h5⟩, h6⟩
    exact ⟨h1, h2, h3, h4.1, h4.2.1, h4.2.2, h5, h6⟩
  · rintro ⟨h1, h2, h3, h4, h5, h6, h7, h8⟩
    exact ⟨⟨⟨⟨⟨h1, h2⟩, h3⟩, h4, h5, h6⟩, h7⟩, h8⟩
lemma candidateOk_info (e : NormalizedFinding) (h : e.finding.severity = ScanSeverity.info) :
    candidateOk e = false := by
  unfold candidateOk
  rw [h]
  decide

lemma linkedB_info_left (a b : NormalizedFinding) (h : a.finding.severity = ScanSeverity.info) :
    linkedB a b = false := by
  unfold linkedB
  rw [candidateOk_info a h]
  simp

/-- C4: when every finding ingested into the collector has severity INFO,
detect_attack_paths returns the empty sequence — severity below the
configured floor never contributes a finding to any attack path
candidate. -/
theorem detect_attack_paths_info_only_empty (c : ResultCollector)
    (h : ∀ e ∈ c.entries, e.finding.severity = ScanSeverity.info) :
    detect_attack_paths c = [] := by
  unfold detect_attack_paths
  rw [List.flatMap_eq_nil_iff]
  intro a ha
  rw [List.map_eq_nil_iff, List.filter_eq_nil_iff]
  intro b _
  rw [linkedB_info_left a b (h a ha)]
  simp

/-- The SCAN-phase SQL injection finding of the in-repo test fixtures. -/
def sqliScanFinding : ScanFinding :=
  { title := "SQL Injection in /api/users"
  , severity := ScanSeverity.critical
  , description := "Time-based blind SQL injection"
  , host := "api.example.com"
  , port := some 443
  , url := some ("https://api.example.com/api/users?id=1")
  , source_tool := "nuclei"
  , tags := ["sqli", "injection"] }

/-- The EXPLOIT-phase exploitation finding of the in-repo test fixtures. -/
def sqliExploitFinding : ScanFinding :=
  { title := "SQLi Exploitation Success"
  , severity := ScanSeverity.critical
  , description := "Database dumped: users table with credentials"
  , host := "api.example.com"
  , port := some 443
  , url := some ("https://api.example.com/api/users?id=1")
  , source_tool := "sqlmap"
  , tags := ["sqli", "exploitation", "data-breach"] }

/-- Collector holding the SCAN-phase sqli finding and the EXPLOIT-phase
exploitation finding, both at severity CRITICAL. -/
def critPairCollector : ResultCollector :=
  add_finding (add_finding emptyCollector sqliScanFinding ToolPhase.scan)
    sqliExploitFinding ToolPhase.exploit

/-- Collector holding the same two findings, demoted to severity INFO. -/
def infoPairCollector : ResultCollector :=
  add_finding
    (add_finding emptyCollector { sqliScanFinding with severity := ScanSeverity.info }
      ToolPhase.scan)
    { sqliExploitFinding with severity := ScanSeverity.info } ToolPhase.exploit

/-- Counterexample to C3 as stated: this collector contains a SCAN-phase
finding tagged sqli on the host api.example.com and on the url of the
test fixture, and an EXPLOIT-phase finding tagged exploitation and
data-breach on the same host and url, yet detect_attack_paths returns no
path, because both findings sit below the severity floor (severity
INFO). -/
theorem detect_attack_paths_missing_floor_counterexample :
    (∃ e ∈ infoPairCollector.entries, e.phase = ToolPhase.scan ∧
        e.finding.host = "api.example.com" ∧
        e.finding.url = some ("https://api.example.com/api/users?id=1") ∧
        "sqli" ∈ e.finding.tags) ∧
    (∃ e ∈ infoPairCollector.entries, e.phase = ToolPhase.exploit ∧
        e.finding.host = "api.example.com" ∧
        e.finding.url = some ("https://api.example.com/api/users?id=1") ∧
        "exploitation" ∈ e.finding.tags ∧ "data-breach" ∈ e.finding.tags) ∧
    detect_attack_paths infoPairCollector = [] := by
  refine ⟨?_, ?_, ?_⟩ <;> decide

/-- C3 (amended): a pair of findings contributes an AttackPath exactly
when the earlier-phase finding is linked to the later-phase one — they
share a host (and url/port when both present), both severities are at or
above the configured floor, the earlier tags overlap the escalatable tag
set and the later tags indicate exploitation or data exposure; in
particular the CRITICAL SCAN-phase sqli finding and the EXPLOIT-phase
exploitation finding on the same host and url are linked by at least one
returned path. -/
theorem detect_attack_paths_characterisation :
    (∀ (c : ResultCollector) (p : AttackPath),
        p ∈ detect_attack_paths c ↔
          ∃ a ∈ c.entries, ∃ b ∈ c.entries, LinkedP a b ∧ p = mkPath a b) ∧
    detect_attack_paths critPairCollector ≠ [] := by
  constructor
  · intro c p
    unfold detect_attack_paths
    rw [List.mem_flatMap]
    constructor
    · rintro ⟨a, ha, hp⟩
      rw [List.mem_map] at hp
      rcases hp with ⟨b, hb, hmk⟩
      rw [List.mem_filter] at hb
      exact ⟨a, ha, b, hb.1, (linkedB_eq_true_iff a b).mp hb.2, hmk.symm⟩
    · rintro ⟨a, ha, b, hb, hlink, hmk⟩
      refine ⟨a, ha, ?_⟩
      rw [List.mem_map]
      refine ⟨b, ?_, hmk.symm⟩
      rw [List.mem_filter]
      exact ⟨hb, (linkedB_eq_true_iff a b).mpr hlink⟩
  · decide

/-- Witness for C4: the collector holding only the INFO-severity pair of
findings produces no attack path. -/
theorem detect_attack_paths_info_only_empty_witness :
    detect_attack_paths infoPairCollector = [] :=
  detect_attack_paths_info_only_empty infoPairCollector (by decide)

/-- JSON document model used by the export layer: the exported artifact
is a JSON value rather than raw text, so re-parsing is field lookup over
the document tree. -/
inductive JVal where
  | jnull
  | jbool (b : Bool)
  | jnum (n : Int)
  | jstr (s : String)
  | jarr (xs : List JVal)
  | jobj (fields : List (String × JVal))

/-- Severity rendered the way the export layer prints it. -/
def severityName : ScanSeverity → String
  | .info => "info"
  | .low => "low"
  | .medium => "medium"
  | .high => "high"
  | .critical => "critical"

/-- Phase rendered the way the export layer prints it. -/
def phaseName : ToolPhase → String
  | .recon => "recon"
  | .scan => "scan"
  | .exploit => "exploit"
  | .postExploit => "post_exploit"

/-- Modelled from the spec: get_statistics returns total_findings together
with by-phase and by-severity breakdowns (section 4.4). -/
structure CollectorStatistics where
  total_findings : Nat
  by_phase : List (ToolPhase × Nat)
  by_severity : List (ScanSeverity × Nat)
deriving DecidableEq, Repr

/-- Modelled from the spec: the statistics aggregated over the current
normalized set (section 4.4). -/
def get_statistics (c : ResultCollector) : CollectorStatistics :=
  { total_findings := c.entries.length
  , by_phase :=
      [ToolPhase.recon, ToolPhase.scan, ToolPhase.exploit, ToolPhase.postExploit].map
        (fun p => (p, (c.entries.filter (fun e => e.phase == p)).length))
  , by_severity :=
      [ScanSeverity.info, ScanSeverity.low, ScanSeverity.medium,
        ScanSeverity.high, ScanSeverity.critical].map
        (fun s => (s, (c.entries.filter (fun e => e.finding.severity == s)).length)) }

/-- JSON rendering of one normalized finding, fingerprint included. -/
def findingJson (e : NormalizedFinding) : JVal :=
  .jobj
    [ ("title", .jstr e.finding.title)
    , ("severity", .jstr (severityName e.finding.severity))
    , ("host", .jstr e.finding.host)
    , ("phase", .jstr (phaseName e.phase))
    , ("source_tool", .jstr e.finding.source_tool)
    , ("fingerprint", .jstr e.fingerprint)
    , ("occurrences", .jnum e.occurrences) ]

/-- JSON rendering of one attack path as its fingerprint sequence. -/
def pathJson (p : AttackPath) : JVal :=
  .jarr (p.steps.map JVal.jstr)

/-- JSON rendering of the statistics block. -/
def statisticsJson (c : ResultCollector) : JVal :=
  .jobj
    [ ("total_findings", .jnum (get_statistics c).total_findings)
    , ("by_phase", .jobj ((get_statistics c).by_phase.map
        (fun pr => (phaseName pr.1, JVal.jnum pr.2))))
    , ("by_severity", .jobj ((get_statistics c).by_severity.map
        (fun pr => (severityName pr.1, JVal.jnum pr.2)))) ]

/-- Modelled from the spec: export_json serialises the current normalized
set, statistics and detected paths, without mutating collector state,
into a document with the top-level keys findings, statistics and
attack_paths (sections 4.4 and 6). -/
def export_json (c : ResultCollector) : JVal :=
  .jobj
    [ ("findings", .jarr (c.entries.map findingJson))
    , ("statistics", statisticsJson c)
    , ("attack_paths", .jarr ((detect_attack_paths c).map pathJson)) ]

/-- Field lookup inside a parsed JSON object. -/
def lookupField (fs : List (String × JVal)) (k : String) : Option JVal :=
  (fs.find? (fun pr => pr.1 == k)).map (fun pr => pr.2)

/-- View of a JSON value as an object. -/
def asObj : JVal → Option (List (String × JVal))
  | .jobj fs => some fs
  | _ => none

/-- View of a JSON value as an array. -/
def asArr : JVal → Option (List JVal)
  | .jarr xs => some xs
  | _ => none

/-- View of a JSON value as a number. -/
def asNum : JVal → Option Int
  | .jnum n => some n
  | _ => none

/-- View of a JSON value as a string. -/
def asStr : JVal → Option String
  | .jstr s => some s
  | _ => none

/-- Re-parsing step recovering total_findings from an exported document. -/
def parseTotalFindings (j : JVal) : Option Int := do
  let fs ← asObj j
  let stats ← lookupField fs ("statistics")
  let sfs ← asObj stats
  let tv ← lookupField sfs ("total_findings")
  asNum tv

/-- Fingerprint of one exported finding object. -/
def parseOneFingerprint (j : JVal) : Option String := do
  let fs ← asObj j
  let fp ← lookupField fs ("fingerprint")
  asStr fp

/-- Fingerprints of a parsed findings array, in document order. -/
def parseFingerprintList : List JVal → Option (List String)
  | [] => some []
  | x :: xs =>
    match parseOneFingerprint x with
    | none => none
    | some s =>
      match parseFingerprintList xs with
      | none => none
      | some r => some (s :: r)

/-- Re-parsing step recovering the fingerprint set from an exported
document. -/
def parseFingerprints (j : JVal) : Option (List String) := do
  let fs ← asObj j
  let fv ← lookupField fs ("findings")
  let arr ← asArr fv
  parseFingerprintList arr

lemma parseFingerprintList_of_export (l : List NormalizedFinding) :
    parseFingerprintList (l.map findingJson) = some (l.map (fun e => e.fingerprint)) := by
  induction l with
  | nil => rfl
  | cons a t ih =>
    simp only [List.map_cons, parseFingerprintList, ih]
    rfl

/-- C8: the exported JSON document carries the top-level keys findings,
statistics and attack_paths; re-parsing it recovers the total_findings
count and the full fingerprint sequence present before export, and the
export leaves the collector state unchanged (it is a pure read of the
normalized set). -/
theorem export_json_round_trip (c : ResultCollector) :
    (∃ fs, export_json c = JVal.jobj fs ∧
        (lookupField fs ("findings")).isSome ∧
        (lookupField fs ("statistics")).isSome ∧
        (lookupField fs ("attack_paths")).isSome) ∧
    parseTotalFindings (export_json c) =
      some ((get_statistics c).total_findings : Int) ∧
    parseFingerprints (export_json c) =
      some ((get_normalized_findings c).map (fun e => e.fingerprint)) ∧
    get_normalized_findings c = c.entries := by
  refine ⟨?_, ?_, ?_, rfl⟩
  · exact ⟨_, rfl, by simp [lookupField], by simp [lookupField], by simp [lookupField]⟩
  · rfl
  · show parseFingerprints (export_json c) = some (c.entries.map (fun e => e.fingerprint))
    unfold parseFingerprints export_json
    simp only [asObj, Option.bind_eq_bind, Option.some_bind]
    rw [show lookupField
        [ ("findings", JVal.jarr (c.entries.map findingJson))
        , ("statistics", statisticsJson c)
        , ("attack_paths", JVal.jarr ((detect_attack_paths c).map pathJson)) ] ("findings") =
        some (JVal.jarr (c.entries.map findingJson)) from rfl]
    simp only [Option.some_bind, asArr]
    exact parseFingerprintList_of_export c.entries

/-- Modelled from the spec: one advisory recommendation, a
(tool, priority, reason) triple (section 4.3). -/
structure Recommendation where
  tool : String
  priority : Nat
  reason : String
deriving DecidableEq, Repr

/-- Modelled from the spec: the AdvisoryResult carrying the
recommendation list, an overall risk label and the used_fallback
discriminant (section 4.3 and design note on the tagged variant). -/
structure AdvisoryResult where
  recommendations : List Recommendation
  risk : String
  used_fallback : Bool
deriving DecidableEq, Repr

/-- Modelled from the spec: the failure modes of the injected completion
backend — it may raise on transport error or timeout (section 6). -/
inductive BackendError where
  | timeout
  | transport
deriving DecidableEq, Repr

/-- Parse one recommendation object out of the backend response. -/
def parseRecommendation (j : JVal) : Option Recommendation := do
  let fs ← asObj j
  let toolv ← lookupField fs ("tool")
  let tool ← asStr toolv
  let priov ← lookupField fs ("priority")
  let prio ← asNum priov
  let reasonv ← lookupField fs ("reason")
  let reason ← asStr reasonv
  some ⟨tool, prio.toNat, reason⟩

/-- Parse a list of recommendation objects, failing on any malformed
element. -/
def parseRecommendationList : List JVal → Option (List Recommendation)
  | [] => some []
  | x :: xs =>
    match parseRecommendation x with
    | none => none
    | some r =>
      match parseRecommendationList xs with
      | none => none
      | some rs => some (r :: rs)

/-- Modelled from the spec: validated parsing of the untrusted backend
response — the response must be a JSON object holding a recommendations
array and a risk_assessment label, and every array element must parse
(sections 4.3 and 6). -/
def parseAdvisory (j : JVal) : Option AdvisoryResult := do
  let fs ← asObj j
  let recv ← lookupField fs ("recommendations")
  let arr ← asArr recv
  let recs ← parseRecommendationList arr
  let riskv ← lookupField fs ("risk_assessment")
  let risk ← asStr riskv
  some ⟨recs, risk, false⟩

/-- Baseline tool recommended for the phase that just finished. -/
def defaultToolFor : ToolPhase → String
  | .recon => "httpx"
  | .scan => "nuclei"
  | .exploit => "sqlmap"
  | .postExploit => "linpeas"

/-- Overall risk label computed from the highest severity present. -/
def riskLabel (findings : List ScanFinding) : String :=
  if findings.any (fun f => f.severity == ScanSeverity.critical) then "CRITICAL"
  else if findings.any (fun f => f.severity == ScanSeverity.high) then "HIGH"
  else if findings.any (fun f => f.severity == ScanSeverity.medium) then "MEDIUM"
  else "LOW"

/-- Modelled from the spec: the deterministic rule-based recommendation
set computed from the finding tags and severities when the backend fails
(section 4.3).  A baseline recommendation for the phase is always
emitted, so the fallback set is never empty. -/
def fallbackAdvisory (phase : ToolPhase) (findings : List ScanFinding) : AdvisoryResult :=
  let tagRecs :=
    (if findings.any (fun f => f.tags.contains ("sqli")) then
      [⟨"sqlmap", 1, "sql injection indicators in findings"⟩] else []) ++
    (if findings.any (fun f => f.tags.contains ("xss")) then
      [⟨"dalfox", 2, "cross site scripting indicators in findings"⟩] else []) ++
    (if findings.any (fun f => ScanSeverity.high.rank ≤ f.severity.rank) then
      [⟨"nuclei", 1, "high severity findings present"⟩] else [])
  { recommendations :=
      ⟨defaultToolFor phase, 5, "baseline coverage for the next phase"⟩ :: tagRecs
  , risk := riskLabel findings
  , used_fallback := true }

/-- Modelled from the spec: AICheckpointClient.analyze_phase — the settled
outcome of the completion call is consumed; a transport failure or
timeout, as well as a response that fails validated parsing, resolves
into the rule-based fallback with used_fallback set; a well-formed
response is returned as parsed (section 4.3).  The function is total, so
no failure path raises to the caller. -/
def analyze_phase (phase : ToolPhase) (findings : List ScanFinding) (_target : String)
    (outcome : Except BackendError JVal) : AdvisoryResult :=
  match outcome with
  | .error _ => fallbackAdvisory phase findings
  | .ok j =>
    match parseAdvisory j with
    | some r => r
    | none => fallbackAdvisory phase findings

/-- C2: the advisory call never raises — every outcome of the completion
backend resolves to a valid AdvisoryResult; whenever the backend times
out, fails in transport, or returns a response that fails validated
parsing, the result has used_fallback true and a non-empty recommendation
set, and that fallback result is a deterministic function of the inputs
alone (in particular identical for every failure mode). -/
theorem analyze_phase_fallback_total
    (phase : ToolPhase) (findings : List ScanFinding) (target : String)
    (outcome : Except BackendError JVal) :
    (∀ e, outcome = Except.error e →
        (analyze_phase phase findings target outcome).used_fallback = true ∧
        (analyze_phase phase findings target outcome).recommendations ≠ []) ∧
    (∀ j, outcome = Except.ok j → parseAdvisory j = none →
        (analyze_phase phase findings target outcome).used_fallback = true ∧
        (analyze_phase phase findings target outcome).recommendations ≠ []) ∧
    (∀ e e', analyze_phase phase findings target (Except.error e) =
        analyze_phase phase findings target (Except.error e')) := by
  refine ⟨?_, ?_, ?_⟩
  · rintro e rfl
    exact ⟨rfl, by simp [analyze_phase, fallbackAdvisory]⟩
  · rintro j rfl hparse
    simp only [analyze_phase, hparse]
    exact ⟨rfl, by simp [fallbackAdvisory]⟩
  · intro e e'
    rfl

/-- Witness for C2: a backend that times out on the recon findings yields
the non-empty deterministic fallback. -/
theorem analyze_phase_fallback_total_witness :
    (analyze_phase ToolPhase.recon [] ("example.com")
        (Except.error BackendError.timeout)).used_fallback = true ∧
    (analyze_phase ToolPhase.recon [] ("example.com")
        (Except.error BackendError.timeout)).recommendations ≠ [] :=
  (analyze_phase_fallback_total ToolPhase.recon [] ("example.com")
      (Except.error BackendError.timeout)).1 BackendError.timeout rfl

/-- Modelled from the spec: the ScopeDecision enum of
aipt_v2.intelligence.scope (section 4.2; values pinned by
tests/test_intelligence.py). -/
inductive ScopeDecision where
  | in_scope
  | out_of_scope
  | excluded
  | rate_limited
  | unknown
deriving DecidableEq, Repr

/-- Modelled from the spec: the ScopeConfig record — included/excluded
domains and IPs, excluded path patterns and keywords, the
subdomain-inclusion flag, the blocking flag and the per-second and
per-minute request budgets (section 3; defaults pinned by
tests/test_intelligence.py).  IP entries are matched against the host
textually and path patterns are matched by containment, which is the
observable behaviour the claims exercise. -/
structure ScopeConfig where
  included_domains : List String := []
  included_ips : List String := []
  excluded_domains : List String := []
  excluded_ips : List String := []
  excluded_paths : List String := []
  excluded_keywords : List String := []
  allow_subdomains : Bool := true
  block_out_of_scope : Bool := true
  max_requests_per_second : Nat := 10
  max_requests_per_minute : Nat := 300
deriving DecidableEq, Repr

/-- True when the second character list is an initial segment of the
first. -/
def listHasInit : List Char → List Char → Bool
  | _, [] => true
  | [], _ :: _ => false
  | x :: xs, y :: ys => x == y && listHasInit xs ys

/-- True when the second character list occurs somewhere inside the
first. -/
def subOccurs : List Char → List Char → Bool
  | [], b => b.isEmpty
  | a :: xs, b => listHasInit (a :: xs) b || subOccurs xs b

/-- Host portion of a candidate target: the scheme is stripped and the
host ends at the first slash or colon. -/
def hostOf (candidate : String) : String :=
  let cs := candidate.data
  let rest :=
    if listHasInit cs ("https://".data) then cs.drop 8
    else if listHasInit cs ("http://".data) then cs.drop 7
    else cs
  String.mk (rest.takeWhile (fun ch => !(ch == '/' || ch == ':')))

/-- Path portion of a candidate target: everything from the first slash
after the host. -/
def pathOf (candidate : String) : String :=
  let cs := candidate.data
  let rest :=
    if listHasInit cs ("https://".data) then cs.drop 8
    else if listHasInit cs ("http://".data) then cs.drop 7
    else cs
  String.mk (rest.dropWhile (fun ch => !(ch == '/')))

/-- Domain match with optional subdomain matching: the host equals the
domain, or, when subdomains are allowed, ends with a dot followed by the
domain. -/
def domainMatch (allowSub : Bool) (host dom : String) : Bool :=
  host == dom ||
  (allowSub && listHasInit host.data.reverse ('.' :: dom.data).reverse)

/-- Rule (1) of the evaluation order: the candidate matches an
excluded-domain/IP/path/keyword rule. -/
def matchesExcluded (cfg : ScopeConfig) (candidate : String) : Bool :=
  cfg.excluded_domains.any (fun d => domainMatch cfg.allow_subdomains (hostOf candidate) d) ||
  cfg.excluded_ips.any (fun ip => hostOf candidate == ip) ||
  cfg.excluded_paths.any (fun pat => subOccurs (pathOf candidate).data pat.data) ||
  cfg.excluded_keywords.any (fun k => subOccurs candidate.data k.data)

/-- Rule (2) of the evaluation order: the candidate host matches some
included domain or IP, with subdomain matching applied when enabled. -/
def matchesIncluded (cfg : ScopeConfig) (candidate : String) : Bool :=
  cfg.included_domains.any (fun d => domainMatch cfg.allow_subdomains (hostOf candidate) d) ||
  cfg.included_ips.any (fun ip => hostOf candidate == ip)

/-- Rule (3) of the evaluation order: a request-rate counter exceeds the
configured per-second or per-minute budget. -/
def rateExceeded (cfg : ScopeConfig) (perSecond perMinute : Nat) : Bool :=
  cfg.max_requests_per_second < perSecond || cfg.max_requests_per_minute < perMinute

/-- Modelled from the spec: ScopeEnforcer.evaluate applies the rules in
fixed first-match-wins order — excluded, then not-included, then
rate-limited, and otherwise IN_SCOPE (section 4.2).  The current
request-rate counters are passed explicitly. -/
def evaluate (cfg : ScopeConfig) (perSecond perMinute : Nat)
    (candidate : String) : ScopeDecision :=
  if matchesExcluded cfg candidate then ScopeDecision.excluded
  else if !matchesIncluded cfg candidate then ScopeDecision.out_of_scope
  else if rateExceeded cfg perSecond perMinute then ScopeDecision.rate_limited
  else ScopeDecision.in_scope

/-- Scope configuration of the C7 example: example.com included, default
subdomain inclusion on. -/
def exampleScope : ScopeConfig :=
  { included_domains := ["example.com"] }

/-- C7: evaluate applies its rules in fixed first-match-wins order — an
exclusion match gives EXCLUDED, absence from the included domains/IPs
(with subdomain matching when enabled) gives OUT_OF_SCOPE, an exceeded
per-second or per-minute budget gives RATE_LIMITED, and otherwise the
decision is IN_SCOPE; with included_domains example.com and subdomain
inclusion on, the api.example.com url is IN_SCOPE and evil.com is
OUT_OF_SCOPE. -/
theorem evaluate_first_match_order
    (cfg : ScopeConfig) (perSecond perMinute : Nat) (candidate : String) :
    (matchesExcluded cfg candidate = true →
        evaluate cfg perSecond perMinute candidate = ScopeDecision.excluded) ∧
    (matchesExcluded cfg candidate = false → matchesIncluded cfg candidate = false →
        evaluate cfg perSecond perMinute candidate = ScopeDecision.out_of_scope) ∧
    (matchesExcluded cfg candidate = false → matchesIncluded cfg candidate = true →
        rateExceeded cfg perSecond perMinute = true →
        evaluate cfg perSecond perMinute candidate = ScopeDecision.rate_limited) ∧
    (matchesExcluded cfg candidate = false → matchesIncluded cfg candidate = true →
        rateExceeded cfg perSecond perMinute = false →
        evaluate cfg perSecond perMinute candidate = ScopeDecision.in_scope) ∧
    evaluate exampleScope 0 0 ("https://api.example.com/x") = ScopeDecision.in_scope ∧
    evaluate exampleScope 0 0 ("https://evil.com") = ScopeDecision.out_of_scope := by
  refine ⟨?_, ?_, ?_, ?_, by decide, by decide⟩
  · intro h
    simp [evaluate, h]
  · intro h1 h2
    simp [evaluate, h1, h2]
  · intro h1 h2 h3
    simp [evaluate, h1, h2, h3]
  · intro h1 h2 h3
    simp [evaluate, h1, h2, h3]

/-- Witness for C7: with a configuration excluding the admin subdomain,
the branch implications of the evaluation order produce the EXCLUDED
decision on the admin url. -/
theorem evaluate_first_match_order_witness :
    evaluate { exampleScope with excluded_domains := ["admin.example.com"] } 0 0
      ("https://admin.example.com/login") = ScopeDecision.excluded :=
  (evaluate_first_match_order
      { exampleScope with excluded_domains := ["admin.example.com"] } 0 0
      ("https://admin.example.com/login")).1 (by decide)

/-- Modelled from the spec: the result contract of the consumed tool
execution interface (section 6) realising
aipt_v2.execution.terminal.ExecutionResult, missing from the sources;
field names and the derived success flag are pinned by
tests/test_cross_platform.py (the float duration field carries no
information for any claim and is omitted). -/
structure ExecutionResult where
  command : String
  output : String
  error : Option String := none
  return_code : Int
  timed_out : Bool
deriving DecidableEq, Repr

/-- Derived success flag of an execution result: a zero return code and no
timeout. -/
def ExecutionResult.success (r : ExecutionResult) : Bool :=
  r.return_code == 0 && !r.timed_out

/-- C10: the derived success flag is true exactly when return_code is zero
and timed_out is false — a timed-out execution is never a success even
with return code zero, and a non-zero return code is never a success. -/
theorem executionResult_success_iff (r : ExecutionResult) :
    r.success = true ↔ (r.return_code = 0 ∧ r.timed_out = false) := by
  unfold ExecutionResult.success
  rw [Bool.and_eq_true, beq_iff_eq, Bool.not_eq_true']

/-- Modelled from the spec: the status of one phase run (section 3 gives
SUCCEEDED/FAILED/TIMED_OUT; tests render completion as completed).  The
claims exercise the completed/failed distinction. -/
inductive PhaseStatus where
  | completed
  | failed
deriving DecidableEq, Repr

/-- Modelled from the spec: the settled outcome of one tool invocation
within a phase — the findings it produced, or a failure (an error, a
timeout, or a non-zero status, all treated as a failed tool,
section 7 (a)). -/
inductive ToolRun where
  | ok (findings : List ScanFinding)
  | failed
deriving DecidableEq, Repr

/-- Modelled from the spec: the PhaseReport of one phase run — name,
status and the ordered findings (section 3). -/
structure PhaseReport where
  phase_name : String
  status : PhaseStatus
  findings : List ScanFinding
deriving DecidableEq, Repr

/-- Modelled from the spec: assembling one PhaseReport — findings of the
settled tool outcomes are gathered in order, and the phase is FAILED
exactly when it ran tools and every one of them failed (sections 4.5
and 7 (b); a phase that throws is subsumed by the all-tools-failed
case). -/
def runPhaseModel (name : String) (outcomes : List ToolRun) : PhaseReport :=
  let findings := outcomes.flatMap (fun o =>
    match o with
    | .ok fs => fs
    | .failed => [])
  let allFailed :=
    !outcomes.isEmpty && outcomes.all (fun o =>
      match o with
      | .failed => true
      | .ok _ => false)
  ⟨name, if allFailed then PhaseStatus.failed else PhaseStatus.completed, findings⟩

/-- Modelled from the spec: the orchestrator runs the configured phases in
declaration order over their settled tool outcomes; a failed phase stops
the run only when stop-on-failure is configured, and otherwise the
pipeline proceeds to the next phase (section 4.5). -/
def runPipelineModel : List (String × List ToolRun) → Bool → List PhaseReport
  | [], _ => []
  | (name, outcomes) :: rest, stopOnFailure =>
    let report := runPhaseModel name outcomes
    if stopOnFailure && report.status == PhaseStatus.failed then [report]
    else report :: runPipelineModel rest stopOnFailure

/-- Recon finding used by the C6 example run. -/
def reconListingFinding : ScanFinding :=
  { title := "Subdomain: api.example.com"
  , severity := ScanSeverity.info
  , description := "Active subdomain with HTTP service"
  , host := "api.example.com"
  , port := some 443
  , source_tool := "subfinder"
  , tags := ["subdomain", "recon"] }

/-- Three-phase run of the C6 example: every tool of the second phase
fails. -/
def threePhaseRun : List (String × List ToolRun) :=
  [ ("recon", [ToolRun.ok [reconListingFinding]])
  , ("scan", [ToolRun.failed, ToolRun.failed])
  , ("exploit", [ToolRun.ok []]) ]

/-- C6: under the default (non-stop-on-failure) policy a failed phase does
not abort the run — the pipeline report holds exactly one PhaseReport per
configured phase, in order; in particular the 3-phase run whose second
phase tools all fail yields three reports with phase 2 FAILED and phases
1 and 3 completed. -/
theorem pipeline_failed_phase_continues
    (phases : List (String × List ToolRun)) :
    (runPipelineModel phases false).length = phases.length ∧
    (runPipelineModel phases false).map (fun r => r.phase_name) =
      phases.map (fun pr => pr.1) ∧
    (runPipelineModel threePhaseRun false).map (fun r => r.status) =
      [PhaseStatus.completed, PhaseStatus.failed, PhaseStatus.completed] := by
  refine ⟨?_, ?_, by decide⟩
  · induction phases with
    | nil => rfl
    | cons h t ih =>
      obtain ⟨name, outcomes⟩ := h
      simpa [runPipelineModel] using ih
  · induction phases with
    | nil => rfl
    | cons h t ih =>
      obtain ⟨name, outcomes⟩ := h
      simpa [runPipelineModel, runPhaseModel] using ih

/-- Modelled from the spec: the per-run pipeline state machine
IDLE to RUNNING to one of COMPLETED, CANCELLED, FAILED (section 3). -/
inductive PipelineState where
  | idle
  | running
  | completed
  | cancelled
  | failedState
deriving DecidableEq, Repr

/-- Modelled from the spec: the observable orchestrator state the
run/cancel step relation acts on — the pipeline state, the cooperative
cancellation flag, the number of in-flight tool invocations and the log
of dispatched tool invocations (sections 4.5 and 5). -/
structure RunnerState where
  st : PipelineState
  cancelRequested : Bool
  inflight : Nat
  dispatched : List String
deriving DecidableEq, Repr

/-- Events of the run/cancel step relation: dispatching a tool invocation,
one in-flight invocation settling, and a cancel request. -/
inductive RunEvent where
  | dispatchTool (tool : String)
  | settleTool
  | cancelCall
deriving DecidableEq, Repr

/-- Modelled from the spec: one step of the orchestrator.  A tool is
dispatched only while RUNNING with no cancellation observed; a settling
invocation decrements the in-flight count and, once a requested
cancellation finds no in-flight work left, the state becomes CANCELLED;
cancel marks the cooperative flag and transitions immediately when
nothing is in flight (section 4.5). -/
def stepRunner (s : RunnerState) : RunEvent → RunnerState
  | .dispatchTool tool =>
    if s.st == PipelineState.running && !s.cancelRequested then
      { s with inflight := s.inflight + 1, dispatched := tool :: s.dispatched }
    else s
  | .settleTool =>
    if s.inflight == 0 then s
    else
      let s1 := { s with inflight := s.inflight - 1 }
      if s.cancelRequested && s1.inflight == 0 && s.st == PipelineState.running then
        { s1 with st := PipelineState.cancelled }
      else s1
  | .cancelCall =>
    if s.st == PipelineState.running then
      if s.inflight == 0 then
        { s with cancelRequested := true, st := PipelineState.cancelled }
      else { s with cancelRequested := true }
    else s

/-- Execution of the step relation over a list of events. -/
def runSteps (events : List RunEvent) (s : RunnerState) : RunnerState :=
  events.foldl stepRunner s

/-- Invariant holding from the moment a cancellation has been observed in
the RUNNING state: the flag stays, and the machine is either already
CANCELLED or still RUNNING with in-flight work left to unwind. -/
def CancelObserved (s : RunnerState) : Prop :=
  s.cancelRequested = true ∧
  (s.st = PipelineState.cancelled ∨ (s.st = PipelineState.running ∧ 0 < s.inflight))

lemma stepRunner_preserves_cancelObserved (s : RunnerState) (e : RunEvent)
    (h : CancelObserved s) :
    CancelObserved (stepRunner s e) ∧ (stepRunner s e).dispatched = s.dispatched := by
  obtain ⟨hflag, hstate⟩ := h
  cases e with
  | dispatchTool tool =>
    have : (s.st == PipelineState.running && !s.cancelRequested) = false := by
      simp [hflag]
    simp [stepRunner, this]
    exact ⟨hflag, hstate⟩
  | settleTool =>
    rcases hstate with hc | ⟨hr, hpos⟩
    · by_cases h0 : s.inflight = 0
      · simp [stepRunner, CancelObserved, h0, hflag, hc]
      · have : (s.st == PipelineState.running) = false := by simp [hc]
        simp [stepRunner, CancelObserved, h0, hflag, this, hc]
    · have h0 : (s.inflight == 0) = false := by
        simp
        omega
      by_cases h1 : s.inflight - 1 = 0
      · simp [stepRunner, CancelObserved, h0, hflag, hr, h1]
      · simp [stepRunner, CancelObserved, h0, hflag, hr, h1]
        omega
  | cancelCall =>
    rcases hstate with hc | ⟨hr, hpos⟩
    · have : (s.st == PipelineState.running) = false := by simp [hc]
      simp [stepRunner, CancelObserved, this, hflag, hc]
    · have h0 : (s.inflight == 0) = false := by
        simp
        omega
      simp [stepRunner, CancelObserved, hr, h0, hpos]

lemma runSteps_cancelObserved (events : List RunEvent) :
    ∀ s : RunnerState, CancelObserved s →
      CancelObserved (runSteps events s) ∧ (runSteps events s).dispatched = s.dispatched := by
  induction events with
  | nil => exact fun s h => ⟨h, rfl⟩
  | cons e rest ih =>
    intro s h
    have hstep := stepRunner_preserves_cancelObserved s e h
    have htail := ih (stepRunner s e) hstep.1
    exact ⟨htail.1, htail.2.trans hstep.2⟩

/-- C5: once cancel is called while the pipeline is RUNNING, no event
sequence ever dispatches another tool invocation (the dispatch log is
frozen), and whenever the in-flight work has fully unwound the pipeline
state is CANCELLED. -/
theorem cancel_freezes_dispatch_and_cancels
    (s : RunnerState) (events : List RunEvent)
    (hrun : s.st = PipelineState.running) :
    (runSteps events (stepRunner s RunEvent.cancelCall)).dispatched = s.dispatched ∧
    ((runSteps events (stepRunner s RunEvent.cancelCall)).inflight = 0 →
      (runSteps events (stepRunner s RunEvent.cancelCall)).st = PipelineState.cancelled) := by
  have hobs : CancelObserved (stepRunner s RunEvent.cancelCall) := by
    unfold stepRunner CancelObserved
    by_cases h0 : s.inflight = 0
    · simp [hrun, h0]
    · simp [hrun, h0]
      omega
  have hdisp : (stepRunner s RunEvent.cancelCall).dispatched = s.dispatched := by
    unfold stepRunner
    by_cases h0 : s.inflight = 0 <;> simp [hrun, h0]
  have h := runSteps_cancelObserved events (stepRunner s RunEvent.cancelCall) hobs
  refine ⟨h.2.trans hdisp, ?_⟩
  intro hzero
  rcases h.1.2 with hc | ⟨_, hpos⟩
  · exact hc
  · omega

/-- Witness for C5: a concrete run with one in-flight invocation,
cancelled and then driven by further dispatch attempts and settles, keeps
its dispatch log frozen and ends CANCELLED. -/
theorem cancel_freezes_dispatch_and_cancels_witness :
    (runSteps [RunEvent.dispatchTool ("nuclei"), RunEvent.settleTool]
        (stepRunner ⟨PipelineState.running, false, 1, ["nmap"]⟩ RunEvent.cancelCall)).dispatched =
      ["nmap"] ∧
    (runSteps [RunEvent.dispatchTool ("nuclei"), RunEvent.settleTool]
        (stepRunner ⟨PipelineState.running, false, 1, ["nmap"]⟩ RunEvent.cancelCall)).st =
      PipelineState.cancelled := by
  have h := cancel_freezes_dispatch_and_cancels
    ⟨PipelineState.running, false, 1, ["nmap"]⟩
    [RunEvent.dispatchTool ("nuclei"), RunEvent.settleTool] rfl
  exact ⟨h.1, h.2 (by decide)⟩

/-- Events of the scheduling trace: dispatching a tool invocation of a
phase, that invocation settling, and the end-of-phase advisory
checkpoint. -/
inductive SchedEvent where
  | dispatch (phase : Nat) (tool : String)
  | settle (phase : Nat) (tool : String)
  | checkpoint (phase : Nat)
deriving DecidableEq, Repr

/-- Waves of the bounded worker pool: the tool list split into
consecutive groups of at most m tools (m at least 1). -/
def chunksOf (m : Nat) : List String → List (List String)
  | [] => []
  | t :: ts => (t :: ts.take (m - 1)) :: chunksOf m (ts.drop (m - 1))
termination_by ts => ts.length
decreasing_by
  simp only [List.length_drop, List.length_cons]
  omega

/-- Trace of one worker-pool wave: the dispatches of the wave followed by
their settlements. -/
def chunkEvents (i : Nat) (c : List String) : List SchedEvent :=
  c.map (SchedEvent.dispatch i) ++ c.map (SchedEvent.settle i)

/-- Modelled from the spec: the trace of one phase — its tool invocations
run through the bounded worker pool, and the advisory checkpoint is
issued at the end of the phase (sections 4.5 and 5). -/
def phaseBlock (m i : Nat) (ts : List String) : List SchedEvent :=
  (chunksOf m ts).flatMap (chunkEvents i) ++ [SchedEvent.checkpoint i]

/-- Trace of the phases from index i on, run strictly sequentially. -/
def scheduleFrom (m : Nat) (i : Nat) : List (List String) → List SchedEvent
  | [] => []
  | ts :: rest => phaseBlock m i ts ++ scheduleFrom m (i + 1) rest

/-- Modelled from the spec: the full scheduling trace of a run — phases in
declaration order, each a sequence of worker-pool waves bounded by
max_concurrent_tools and closed by its advisory checkpoint (section 5). -/
def schedule (m : Nat) (phases : List (List String)) : List SchedEvent :=
  scheduleFrom m 0 phases

/-- Removal of the first occurrence of an element from the pending set. -/
def removeFirst : List (Nat × String) → Nat × String → List (Nat × String)
  | [], _ => []
  | q :: qs, x => if q = x then qs else q :: removeFirst qs x

/-- Trace acceptor for the concurrency discipline of section 5, tracking
the multiset of in-flight invocations.  A dispatch is legal only when
every in-flight invocation belongs to the same phase (strict phase
sequencing) and the bound m on concurrent invocations is respected; a
settle is legal only for an in-flight invocation; a checkpoint of phase i
is legal only when no invocation of phase i is still in flight (the
barrier).  The final pending set is returned on acceptance. -/
def runTrace (m : Nat) : List SchedEvent → List (Nat × String) → Option (List (Nat × String))
  | [], pending => some pending
  | SchedEvent.dispatch i t :: rest, pending =>
    if (∀ q ∈ pending, q.1 = i) ∧ pending.length + 1 ≤ m then
      runTrace m rest ((i, t) :: pending)
    else none
  | SchedEvent.settle i t :: rest, pending =>
    if (i, t) ∈ pending then runTrace m rest (removeFirst pending (i, t))
    else none
  | SchedEvent.checkpoint i :: rest, pending =>
    if ∀ q ∈ pending, q.1 ≠ i then runTrace m rest pending
    else none

lemma runTrace_append (m : Nat) :
    ∀ (xs ys : List SchedEvent) (pending : List (Nat × String)),
      runTrace m (xs ++ ys) pending =
        (runTrace m xs pending).bind (runTrace m ys) := by
  intro xs
  induction xs with
  | nil => intro ys pending; rfl
  | cons e rest ih =>
    intro ys pending
    cases e with
    | dispatch i t =>
      rw [List.cons_append]
      show (if (∀ q ∈ pending, q.1 = i) ∧ pending.length + 1 ≤ m then
          runTrace m (rest ++ ys) ((i, t) :: pending) else none) = _
      split
      · rename_i hcond
        rw [ih ys ((i, t) :: pending)]
        show _ = (Option.bind (if _ then _ else none) _)
        rw [if_pos hcond]
      · rename_i hcond
        show none = (Option.bind (if _ then _ else none) _)
        rw [if_neg hcond]
        rfl
    | settle i t =>
      rw [List.cons_append]
      show (if (i, t) ∈ pending then
          runTrace m (rest ++ ys) (removeFirst pending (i, t)) else none) = _
      split
      · rename_i hcond
        rw [ih ys (removeFirst pending (i, t))]
        show _ = (Option.bind (if _ then _ else none) _)
        rw [if_pos hcond]
      · rename_i hcond
        show none = (Option.bind (if _ then _ else none) _)
        rw [if_neg hcond]
        rfl
    | checkpoint i =>
      rw [List.cons_append]
      show (if ∀ q ∈ pending, q.1 ≠ i then runTrace m (rest ++ ys) pending else none) = _
      split
      · rename_i hcond
        rw [ih ys pending]
        show _ = (Option.bind (if _ then _ else none) _)
        rw [if_pos hcond]
      · rename_i hcond
        show none = (Option.bind (if _ then _ else none) _)
        rw [if_neg hcond]
        rfl

lemma perm_removeFirst (x : Nat × String) :
    ∀ l : List (Nat × String), x ∈ l → l.Perm (x :: removeFirst l x) := by
  intro l
  induction l with
  | nil => intro h; cases h
  | cons q qs ih =>
    intro h
    by_cases hq : q = x
    · subst hq
      simp [removeFirst]
    · have hx : x ∈ qs := by
        rcases List.mem_cons.mp h with h1 | h1
        · exact absurd h1.symm hq
        · exact h1
      have h2 : List.Perm (q :: qs) (q :: x :: removeFirst qs x) := (ih hx).cons q
      have h3 : List.Perm (q :: x :: removeFirst qs x) (x :: q :: removeFirst qs x) :=
        List.Perm.swap x q (removeFirst qs x)
      have h4 : x :: q :: removeFirst qs x = x :: removeFirst (q :: qs) x := by
        simp [removeFirst, hq]
      exact h4 ▸ (h2.trans h3)

lemma runTrace_settles (m i : Nat) :
    ∀ (c : List String) (pending : List (Nat × String)),
      pending.Perm (c.map (fun t => (i, t))) →
      runTrace m (c.map (SchedEvent.settle i)) pending = some [] := by
  intro c
  induction c with
  | nil =>
    intro pending hperm
    have hnil : pending = [] := List.perm_nil.mp (by simpa using hperm)
    rw [List.map_nil, hnil]
    rfl
  | cons t ts ih =>
    intro pending hperm
    have hmem : (i, t) ∈ pending := by
      rw [hperm.mem_iff]
      simp
    rw [List.map_cons]
    show (if (i, t) ∈ pending then
        runTrace m (ts.map (SchedEvent.settle i)) (removeFirst pending (i, t)) else none) = some []
    rw [if_pos hmem]
    apply ih
    have h1 : pending.Perm ((i, t) :: removeFirst pending (i, t)) :=
      perm_removeFirst (i, t) pending hmem
    have h2 : List.Perm ((i, t) :: removeFirst pending (i, t))
        ((i, t) :: ts.map (fun u => (i, u))) := by
      have h3 : List.Perm ((i, t) :: removeFirst pending (i, t))
          ((t :: ts).map (fun u => (i, u))) := h1.symm.trans hperm
      simpa using h3
    exact h2.cons_inv

lemma runTrace_dispatches (m i : Nat) :
    ∀ (c : List String) (pending : List (Nat × String)),
      (∀ q ∈ pending, q.1 = i) → pending.length + c.length ≤ m →
      runTrace m (c.map (SchedEvent.dispatch i)) pending =
        some ((c.map (fun t => (i, t))).reverse ++ pending) := by
  intro c
  induction c with
  | nil =>
    intro pending _ _
    simp [runTrace]
  | cons t ts ih =>
    intro pending hphase hlen
    rw [List.map_cons]
    show (if (∀ q ∈ pending, q.1 = i) ∧ pending.length + 1 ≤ m then
        runTrace m (ts.map (SchedEvent.dispatch i)) ((i, t) :: pending) else none) = _
    rw [if_pos ⟨hphase, by simp at hlen; omega⟩]
    rw [ih ((i, t) :: pending)
      (by
        intro q hq
        rcases List.mem_cons.mp hq with h1 | h1
        · rw [h1]
        · exact hphase q h1)
      (by simp at hlen ⊢; omega)]
    congr 1
    simp

lemma runTrace_chunk (m i : Nat) (c : List String) (hlen : c.length ≤ m) :
    runTrace m (chunkEvents i c) [] = some [] := by
  unfold chunkEvents
  rw [runTrace_append]
  rw [runTrace_dispatches m i c [] (by intro q hq; cases hq) (by simpa using hlen)]
  rw [Option.some_bind]
  apply runTrace_settles
  simp only [List.append_nil]
  exact (c.map (fun t => (i, t))).reverse_perm

lemma chunksOf_length_le (m : Nat) (hm : 1 ≤ m) :
    ∀ ts : List String, ∀ c ∈ chunksOf m ts, c.length ≤ m := by
  intro ts
  induction ts using chunksOf.induct m with
  | case1 =>
    intro c hc
    rw [chunksOf] at hc
    cases hc
  | case2 t ts ih =>
    intro c hc
    rw [chunksOf] at hc
    rcases List.mem_cons.mp hc with h1 | h1
    · rw [h1]
      simp only [List.length_cons, List.length_take]
      omega
    · exact ih c h1

lemma runTrace_chunkList (m i : Nat) :
    ∀ cs : List (List String), (∀ c ∈ cs, c.length ≤ m) →
      runTrace m (cs.flatMap (chunkEvents i)) [] = some [] := by
  intro cs
  induction cs with
  | nil => intro _; rfl
  | cons c rest ih =>
    intro h
    rw [List.flatMap_cons, runTrace_append,
      runTrace_chunk m i c (h c (by simp)), Option.some_bind]
    exact ih (fun d hd => h d (by simp [hd]))

lemma runTrace_phaseBlock (m i : Nat) (hm : 1 ≤ m) (ts : List String) :
    runTrace m (phaseBlock m i ts) [] = some [] := by
  unfold phaseBlock
  rw [runTrace_append,
    runTrace_chunkList m i (chunksOf m ts) (chunksOf_length_le m hm ts), Option.some_bind]
  show (if ∀ q ∈ ([] : List (Nat × String)), q.1 ≠ i then
      runTrace m [] ([] : List (Nat × String)) else none) = some []
  rw [if_pos (by intro q hq; cases hq)]
  rfl

lemma runTrace_scheduleFrom (m : Nat) (hm : 1 ≤ m) :
    ∀ (phases : List (List String)) (i : Nat),
      runTrace m (scheduleFrom m i phases) [] = some [] := by
  intro phases
  induction phases with
  | nil => intro i; rfl
  | cons ts rest ih =>
    intro i
    show runTrace m (phaseBlock m i ts ++ scheduleFrom m (i + 1) rest) [] = some []
    rw [runTrace_append, runTrace_phaseBlock m i hm ts, Option.some_bind]
    exact ih (i + 1)

/-- C9: the scheduling trace of every run passes the concurrency
discipline acceptor — phases execute strictly sequentially (no invocation
is dispatched while an invocation of another phase is still in flight,
and every invocation of a phase settles inside that phase), at most
max_concurrent_tools invocations are in flight at any point, and the
advisory checkpoint of a phase is issued only after every invocation of
that phase has settled. -/
theorem schedule_respects_concurrency_discipline
    (m : Nat) (phases : List (List String)) (hm : 1 ≤ m) :
    runTrace m (schedule m phases) [] = some [] :=
  runTrace_scheduleFrom m hm phases 0

/-- Witness for C9: a two-phase run with three and one tools under a
concurrency bound of two passes the acceptor. -/
theorem schedule_respects_concurrency_discipline_witness :
    runTrace 2 (schedule 2 [["subfinder", "httpx", "nmap"], ["nuclei"]]) [] = some [] :=
  schedule_respects_concurrency_discipline 2 [["subfinder", "httpx", "nmap"], ["nuclei"]]
    (by decide)

/-- Concrete finding used by the C1 witness. -/
def sampleFinding : ScanFinding :=
  { title := "Open Port: 22/ssh"
  , severity := ScanSeverity.info
  , description := "SSH service on port 22"
  , host := "example.com"
  , port := some 22
  , url := none
  , source_tool := "nmap"
  , tags := ["port", "ssh"] }

/-- Witness for C1: three ingestions of the sample finding into the empty
collector leave exactly one normalized finding for its fingerprint. -/
theorem add_finding_idempotent_dedup_witness :
    ((get_normalized_findings (add_times sampleFinding ToolPhase.recon 3 emptyCollector)).filter
        (fun e => e.fingerprint == fingerprint sampleFinding)).length = 1 :=
  (add_finding_idempotent_dedup emptyCollector sampleFinding ToolPhase.recon 3
    (by decide) (by intro e he; simp [emptyCollector] at he)).1

end Aiptx
